import Mathlib

/-!
Shallow embedding of `lib/assets/caniuse.js` (Can I Use database support for
Emmet) and verification of its specification.

The module keeps three module-scope tables (`vendorsDB`, `cssDB`, `erasDB`,
all initially `null`), fills them from a raw Can I Use database in
`parseDB`, and answers `resolvePrefixes(property)` queries from them.
JavaScript objects are modelled as association lists over `String` keys
(`List.lookup`); `null`/absent values are modelled with `Option`; a thrown
`TypeError` is modelled with `Except.error ()`.  Execution is
single-threaded and synchronous, so a whole call to `load`/`resolvePrefixes`
is one atomic step of the state-passing model.
-/

namespace Caniuse

/-- JavaScript `Array.prototype.slice(n)` with a single, possibly negative,
start argument: a negative start counts from the end of the array and is
clamped at 0 (`max(length + n, 0)`). -/
def jsSlice {α : Type} (l : List α) (n : Int) : List α :=
  if n < 0 then l.drop ((l.length : Int) + n).toNat else l.drop n.toNat

/-- Lodash `_.indexOf`: index of the first occurrence, `-1` when absent. -/
def jsIndexOf (l : List String) (s : String) : Int :=
  if s ∈ l then (l.indexOf s : Int) else -1

/-- Decimal digit test used by the `parseInt` model. -/
def digitB (c : Char) : Bool := decide ('0' ≤ c) && decide (c ≤ '9')

/-- Accumulate the leading run of decimal digits, ignoring everything after
it, exactly as JavaScript `parseInt` does with its string argument. -/
def natOfDigits : List Char → Nat → Nat
  | [], acc => acc
  | c :: cs, acc => if digitB c then natOfDigits cs (10 * acc + (c.toNat - '0'.toNat)) else acc

/-- JavaScript `parseInt` on a character list: an optional sign followed by
at least one decimal digit; `none` models `NaN`. -/
def parseIntJS : List Char → Option Int
  | [] => none
  | '-' :: cs =>
    match cs with
    | [] => none
    | c :: cs' => if digitB c then some (-(natOfDigits (c :: cs') 0 : Int)) else none
  | c :: cs => if digitB c then some ((natOfDigits (c :: cs) 0 : Int)) else none

/-- `parseInt(a.substr(1))` from the era comparator (`caniuse.js` line 123):
drop the leading `e` character and parse the signed integer suffix.  A
non-numeric suffix (`NaN` in JavaScript) is mapped to 0; the verified
claims only concern inputs whose suffixes parse. -/
def eraVal (s : String) : Int := (parseIntJS (s.data.drop 1)).getD 0

/-- Per-vendor table of support codes, keyed by version label
(one `section.stats[vendor]` object). -/
abbrev VersionTable := List (String × String)

/-- Support table of one feature section: vendor → version → support code
(`section.stats`). -/
abbrev Stats := List (String × VersionTable)

/-- One entry of `vendorsDB`: the vendor's prefix string and its per-era
version labels (`null` entries for eras without a release). -/
structure Agent where
  pfx : String
  versions : List (Option String)
deriving DecidableEq

/-- The parsed `vendorsDB` table. -/
abbrev VendorsTable := List (String × Agent)

/-- The parsed `cssDB` table: property/at-rule identifier → support table. -/
abbrev CssTable := List (String × Stats)

/-- One entry of `data.agents` in the raw database. -/
structure RawAgent where
  pfx : String
  versions : List (Option String)
deriving DecidableEq

/-- One feature section of `data.data` in the raw database; only its
`stats` member is consulted. -/
structure FeatSection where
  stats : Stats
deriving DecidableEq

/-- A successfully decoded raw Can I Use database: the sections the parser
touches.  `agents`, `data` and `eras` are read only through null-safe
lodash helpers (`_.each`, `_.keys`), so a document missing one of them
behaves exactly like the empty list used here; `eras` maps era identifier
to a descriptive label of which only the keys are used.  `cats`, by
contrast, is dereferenced directly (`data.cats.CSS`, `caniuse.js` line
101), so a decoded document lacking it throws a `TypeError` during
parsing; the `CSS` member's value is bound to an unused local and an
object without a `CSS` key merely yields `undefined` there, hence only the
presence of `cats` matters. -/
structure RawDB where
  agents : List (String × RawAgent)
  data : List (String × FeatSection)
  eras : List (String × String)
  cats : Option (List (String × List String))
deriving DecidableEq

/-- The three preference values read per resolution call.  Modelled from the
spec: the preference reader is an external collaborator; `getArray` of the
vendor allow-list yields the `null` sentinel (here `none`) for an
empty/unset configuration, per the interface of section 6 of the spec
("empty/sentinel meaning all"). -/
structure Prefs where
  enabled : Bool
  vendorsList : Option (List String)
  era : String

/-- The three module-scope tables (`vendorsDB`, `cssDB`, `erasDB` of
`caniuse.js`), each `null` until a database has been parsed. -/
structure DBState where
  vendorsDB : Option VendorsTable
  cssDB : Option CssTable
  erasDB : Option (List String)

/-- The static feature-section → identifiers map (`cssSections`,
`caniuse.js` lines 32-55), transcribed verbatim, including the repeated
`flex` and `grid` entries and the two identifiers with a leading space. -/
def cssSections : List (String × List String) := [
  ("border-image", ["border-image"]),
  ("css-boxshadow", ["box-shadow"]),
  ("css3-boxsizing", ["box-sizing"]),
  ("multicolumn", ["column-width", "column-count", "columns", "column-gap", "column-rule-color", "column-rule-style", "column-rule-width", "column-rule", "column-span", "column-fill"]),
  ("border-radius", ["border-radius", "border-top-left-radius", "border-top-right-radius", "border-bottom-right-radius", "border-bottom-left-radius"]),
  ("transforms2d", ["transform"]),
  ("css-hyphens", ["hyphens"]),
  ("css-transitions", ["transition", "transition-property", "transition-duration", "transition-timing-function", "transition-delay"]),
  ("font-feature", ["font-feature-settings"]),
  ("css-animation", ["animation", "animation-name", "animation-duration", "animation-timing-function", "animation-iteration-count", "animation-direction", "animation-play-state", "animation-delay", "animation-fill-mode", "@keyframes"]),
  ("css-gradients", ["linear-gradient"]),
  ("css-masks", ["mask-image", "mask-source-type", "mask-repeat", "mask-position", "mask-clip", "mask-origin", "mask-size", "mask", "mask-type", "mask-box-image-source", "mask-box-image-slice", "mask-box-image-width", "mask-box-image-outset", "mask-box-image-repeat", "mask-box-image", "clip-path", "clip-rule"]),
  ("css-featurequeries", ["@supports"]),
  ("flexbox", ["flex", "inline-flex", "flex-direction", "flex-wrap", "flex-flow", "order", "flex"]),
  ("calc", ["calc"]),
  ("object-fit", ["object-fit", "object-position"]),
  ("css-grid", ["grid", "inline-grid", "grid-template-rows", "grid-template-columns", "grid-template-areas", "grid-template", "grid-auto-rows", "grid-auto-columns", " grid-auto-flow", "grid-auto-position", "grid", " grid-row-start", "grid-column-start", "grid-row-end", "grid-column-end", "grid-column", "grid-row", "grid-area", "justify-self", "justify-items", "align-self", "align-items"]),
  ("css-repeating-gradients", ["repeating-linear-gradient"]),
  ("css-filters", ["filter"]),
  ("user-select-none", ["user-select"]),
  ("intrinsic-width", ["min-content", "max-content", "fit-content", "fill-available"]),
  ("css3-tabsize", ["tab-size"])]

/-- JavaScript object assignment `out[k] = v` on an association list:
overwrite an existing binding in place, otherwise append. -/
def objInsert {α : Type} : List (String × α) → String → α → List (String × α)
  | [], k, v => [(k, v)]
  | (k', v') :: rest, k, v =>
    if k' = k then (k, v) :: rest else (k', v') :: objInsert rest k v

/-- `_.each(cssSections[name], function(kw) { out[kw] = section.stats; })`
(`caniuse.js` lines 105-107). -/
def addSection : CssTable → List String → Stats → CssTable
  | out, [], _ => out
  | out, kw :: rest, st => addSection (objInsert out kw st) rest st

/-- One step of the `parseCSS` iteration over `data.data` (`caniuse.js`
lines 103-109): sections whose name is not a key of `cssSections` are
skipped.  (The `data.cats.CSS` dereference of line 101, which precedes
this loop and can throw, is modelled in `parseCSS`.) -/
def cssStep (out : CssTable) (p : String × FeatSection) : CssTable :=
  match List.lookup p.1 cssSections with
  | some kws => addSection out kws p.2.stats
  | none => out

/-- The table built by the `parseCSS` loop over `data.data` (`caniuse.js`
lines 103-109). -/
def cssTables (raw : RawDB) : CssTable :=
  raw.data.foldl cssStep []

/-- `parseCSS` (`caniuse.js` lines 99-112): line 101 reads `data.cats.CSS`
into an unused local, which throws a `TypeError` for a decoded document
lacking the `cats` section (modelled as `Except.error ()`); otherwise the
loop of lines 103-109 builds the table. -/
def parseCSS (raw : RawDB) : Except Unit CssTable :=
  match raw.cats with
  | none => Except.error ()
  | some _ => Except.ok (cssTables raw)

/-- `parseVendors` (`caniuse.js` lines 83-92): copy `prefix` and `versions`
of every agent verbatim. -/
def parseVendors (raw : RawDB) : VendorsTable :=
  raw.agents.map (fun p => (p.1, { pfx := p.2.pfx, versions := p.2.versions }))

/-- The era comparator ordering, `parseInt(a.substr(1)) ≤ parseInt(b.substr(1))`. -/
def eraLe (a b : String) : Prop := eraVal a ≤ eraVal b

/-- Strict version of `eraLe`, used to state the strict-increase invariant. -/
def eraLt (a b : String) : Prop := eraVal a < eraVal b

instance : DecidableRel eraLe := fun a b => inferInstanceAs (Decidable (eraVal a ≤ eraVal b))

instance : IsTotal String eraLe := ⟨fun a b => Int.le_total (eraVal a) (eraVal b)⟩

instance : IsTrans String eraLe := ⟨fun _ _ _ hab hbc => le_trans hab hbc⟩

instance : IsAntisymm String eraLt := ⟨fun _ _ h1 h2 => absurd h1 (lt_asymm h2)⟩

/-- The explicit sort of `parseEra` over a list of era keys.  JavaScript
`Array.prototype.sort` with a consistent comparator is a stable sort; a
stable insertion sort models it. -/
def sortEras (keys : List String) : List String :=
  List.insertionSort eraLe keys

/-- `parseEra` (`caniuse.js` lines 119-125): the key set of `data.eras`
sorted by the parsed integer suffix. -/
def parseEra (raw : RawDB) : List String :=
  sortEras (raw.eras.map Prod.fst)

/-- `getVendorsList` (`caniuse.js` lines 131-139), with the configured
list passed in.  `_.intersection(allVendors, vendors)` keeps, in order,
the vendor keys that also occur in the configured list. -/
def getVendorsList (pref : Option (List String)) (db : VendorsTable) : List String :=
  let allVendors := db.map Prod.fst
  match pref with
  | none => allVendors
  | some vs =>
    if vs.head? = some "all" then allVendors
    else allVendors.filter (fun v => decide (v ∈ vs))

/-- `getVersionSlice` (`caniuse.js` lines 145-153), with the configured era
identifier and the era table passed in (`_.indexOf` on a `null` table
behaves as on an empty list, returning `-1`). -/
def getVersionSlice (era : String) (eras : List String) : Int :=
  let ix := jsIndexOf eras era
  if ix = -1 then jsIndexOf eras "e-2" else ix

/-- `~code.indexOf('x')` (`caniuse.js` line 196): the one-character string
`"x"` occurs as a substring of the support code, i.e. (for a
single-character pattern) some character of the code is `x`.  This is
substring containment, not equality with `"x"`. -/
def containsX (code : String) : Bool := code.data.any (fun c => c == 'x')

/-- `!v` on a version entry (`caniuse.js` line 192): `null`/`undefined`
entries and the empty string are falsy and are skipped. -/
def isAbsent : Option String → Bool
  | none => true
  | some s => s == ""

/-- `propStats[vendor][v]` (`caniuse.js` line 196).  A missing vendor row
makes the inner indexing throw a `TypeError`; a missing version cell makes
the subsequent `.indexOf` call throw.  Both are modelled as
`Except.error ()`. -/
def lookupCode (stats : Stats) (vendor v : String) : Except Unit String :=
  match List.lookup vendor stats with
  | none => Except.error ()
  | some tbl =>
    match List.lookup v tbl with
    | none => Except.error ()
    | some code => Except.ok code

/-- A version entry that the per-vendor loop passes over without recording
a prefix: either falsy, or its support code is found and carries no `x`
flag. -/
def skips (stats : Stats) (vendor : String) (u : Option String) : Prop :=
  isAbsent u = true ∨
    ∃ code, lookupCode stats vendor (u.getD "") = Except.ok code ∧ containsX code = false

/-- The `for` loop over one vendor's sliced version list (`caniuse.js`
lines 190-200): skip falsy entries; on the first support code containing
`x`, report `true` (the caller records the prefix) and stop. -/
def scanVendor (stats : Stats) (vendor : String) : List (Option String) → Except Unit Bool
  | [] => Except.ok false
  | v :: rest =>
    if isAbsent v then scanVendor stats vendor rest
    else
      match lookupCode stats vendor (v.getD "") with
      | Except.error e => Except.error e
      | Except.ok code =>
        if containsX code then Except.ok true else scanVendor stats vendor rest

/-- The `_.each(getVendorsList(), ...)` loop (`caniuse.js` lines 188-201):
gather the prefixes of the vendors whose scan finds an `x`-flagged code; a
`TypeError` anywhere aborts the whole call. -/
def collect (db : VendorsTable) (stats : Stats) (start : Int) : List String → Except Unit (List String)
  | [] => Except.ok []
  | name :: rest =>
    match List.lookup name db with
    | none => Except.error ()
    | some ag =>
      match scanVendor stats name (jsSlice ag.versions start) with
      | Except.error e => Except.error e
      | Except.ok true => Except.map (fun l => ag.pfx :: l) (collect db stats start rest)
      | Except.ok false => collect db stats start rest

/-- Helper of `jsUniq`: keep the elements not seen before. -/
def uniqAux (seen : List String) : List String → List String
  | [] => []
  | x :: xs => if x ∈ seen then uniqAux seen xs else x :: uniqAux (x :: seen) xs

/-- Lodash `_.unique`: first occurrences, in order. -/
def jsUniq (l : List String) : List String := uniqAux [] l

/-- The comparator `b.length - a.length` (`caniuse.js` line 204) as an
ordering: descending string length. -/
def lenGe (a b : String) : Prop := b.length ≤ a.length

instance : DecidableRel lenGe := fun a b => inferInstanceAs (Decidable (b.length ≤ a.length))

instance : IsTotal String lenGe := ⟨fun a b => Or.symm (Nat.le_total a.length b.length)⟩

instance : IsTrans String lenGe := ⟨fun _ _ _ hab hbc => le_trans hbc hab⟩

/-- `.sort(function(a, b) { return b.length - a.length; })`: a stable sort
by descending string length. -/
def sortPrefixes (l : List String) : List String := List.insertionSort lenGe l

/-- `resolvePrefixes` (`caniuse.js` lines 179-206) over explicit preference
values and module state.  `Except.ok none` is the `null` "not applicable"
sentinel; `Except.ok (some l)` is a returned list; `Except.error ()` is a
thrown `TypeError`. -/
def resolvePrefixes (p : Prefs) (st : DBState) (property : String) : Except Unit (Option (List String)) :=
  if p.enabled = false then Except.ok none
  else
    match st.cssDB with
    | none => Except.ok none
    | some css =>
      match List.lookup property css with
      | none => Except.ok none
      | some propStats =>
        match collect (st.vendorsDB.getD []) propStats (getVersionSlice p.era (st.erasDB.getD []))
            (getVendorsList p.vendorsList (st.vendorsDB.getD [])) with
        | Except.error e => Except.error e
        | Except.ok ps => Except.ok (some (sortPrefixes (jsUniq ps)))

/-- `parseDB` (`caniuse.js` lines 68-76) seen from its caller: `none` input
models a string whose `JSON.parse` throws, escaping before any assignment.
For a decoded document the assignments run in sequence: `vendorsDB` first
(line 73, `parseVendors` cannot throw); then `parseCSS`, whose
`data.cats.CSS` dereference (line 101) throws for a document lacking
`cats`, aborting the call with `vendorsDB` already replaced and
`cssDB`/`erasDB` untouched; otherwise `cssDB` and `erasDB` are assigned
(lines 74-75, `parseEra` cannot throw).  `loadState` is the module state
after the call, whether or not it threw; the module is single-threaded, so
readers run only between whole calls. -/
def loadState (st : DBState) (input : Option RawDB) : DBState :=
  match input with
  | none => st
  | some raw =>
    match parseCSS raw with
    | Except.error _ => { st with vendorsDB := some (parseVendors raw) }
    | Except.ok css =>
      { vendorsDB := some (parseVendors raw), cssDB := some css, erasDB := some (parseEra raw) }

/-- Whether the `load` call threw: on an undecodable input, or on a decoded
document without the `cats` section. -/
def loadThrows : Option RawDB → Bool
  | none => true
  | some raw =>
    match parseCSS raw with
    | Except.error _ => true
    | Except.ok _ => false

/-- No identifier is listed under two different feature-section names of
`cssSections` (checked over the literal table). -/
def crossOk : Bool :=
  cssSections.all (fun p => cssSections.all (fun q =>
    decide (p.1 = q.1) || p.2.all (fun kw => decide (kw ∉ q.2))))

/-- Preference values shared by the concrete test configurations below:
feature enabled, vendor list unset, era `e-2`. -/
def cPrefs : Prefs := { enabled := true, vendorsList := none, era := "e-2" }

/-- A state whose support table for property `p` has no row at all for the
(known) vendor `A`. -/
def cState1 : DBState :=
  { vendorsDB := some [("A", { pfx := "-a-", versions := [some "1"] })],
    cssDB := some [("p", ([] : Stats))],
    erasDB := some ["e-2"] }

/-- A state whose support table for property `p` has a row for vendor `A`
but no cell for its version `1`. -/
def cState3 : DBState :=
  { vendorsDB := some [("A", { pfx := "-a-", versions := [some "1"] })],
    cssDB := some [("p", [("A", ([] : VersionTable))])],
    erasDB := some ["e-2"] }

/-- A two-vendor table used by the vendor-set statements. -/
def cVendorsDB : VendorsTable :=
  [("B", { pfx := "-b-", versions := [] }), ("C", { pfx := "-c-", versions := [] })]

/-- A complete support table for vendor `A`: version `1` unprefixed,
version `2` prefixed (`"a x"`), version `3` supported. -/
def wStats : Stats := [("A", [("1", "n"), ("2", "a x"), ("3", "y")])]

/-- A fully populated state where `box-shadow` needs the `-a-` prefix. -/
def wState : DBState :=
  { vendorsDB := some [("A", { pfx := "-a-", versions := [some "1", some "2"] })],
    cssDB := some [("box-shadow", wStats)],
    erasDB := some ["e-2", "e0"] }

/-- A raw database with two era keys listed newest-first. -/
def wRawEras : RawDB :=
  { agents := [], data := [], eras := [("e0", "now"), ("e-2", "old")],
    cats := some [("CSS", [])] }

/-- A raw database containing only the `object-fit` feature section. -/
def wRawCss : RawDB :=
  { agents := [], data := [("object-fit", { stats := [("A", [("1", "y")])] })], eras := [],
    cats := some [("CSS", [])] }

/-- A decoded document that lacks the `cats` section but carries an agent. -/
def cRawNoCats : RawDB :=
  { agents := [("A", { pfx := "-a-", versions := [] })], data := [], eras := [], cats := none }

/-- A previously loaded snapshot whose vendors table differs from the one
`cRawNoCats` yields. -/
def cState8 : DBState :=
  { vendorsDB := some [("B", { pfx := "-b-", versions := [] })],
    cssDB := some [("p", ([] : Stats))],
    erasDB := some ["e-2"] }

theorem crossOk_eq_true : crossOk = true := by decide

theorem lookup_mem {α : Type} (l : List (String × α)) (k : String) (v : α)
    (h : List.lookup k l = some v) : (k, v) ∈ l := by
  induction l with
  | nil => simp [List.lookup] at h
  | cons p rest ih =>
    obtain ⟨k', v'⟩ := p
    rw [List.lookup] at h
    by_cases hk : k = k'
    · subst hk
      have hb : (k == k) = true := by simp
      rw [hb] at h
      obtain rfl : v' = v := by simpa using h
      exact List.mem_cons_self _ _
    · have hb : (k == k') = false := beq_false_of_ne hk
      rw [hb] at h
      exact List.mem_cons_of_mem _ (ih h)

theorem sections_unique (n n' : String) (l l' : List String) (kw : String)
    (h1 : List.lookup n cssSections = some l) (h2 : List.lookup n' cssSections = some l')
    (m1 : kw ∈ l) (m2 : kw ∈ l') : l = l' := by
  by_cases hnn : n = n'
  · subst hnn
    rw [h1] at h2
    exact Option.some.inj h2
  · exfalso
    have hall := crossOk_eq_true
    rw [crossOk, List.all_eq_true] at hall
    have hx := hall (n, l) (lookup_mem _ _ _ h1)
    rw [List.all_eq_true] at hx
    have hx2 := hx (n', l') (lookup_mem _ _ _ h2)
    rw [Bool.or_eq_true] at hx2
    rcases hx2 with hc | hd
    · exact hnn (of_decide_eq_true hc)
    · rw [List.all_eq_true] at hd
      exact of_decide_eq_true (hd kw m1) m2

theorem objInsert_lookup_self {α : Type} (l : List (String × α)) (k : String) (v : α) :
    List.lookup k (objInsert l k v) = some v := by
  induction l with
  | nil => simp [objInsert, List.lookup]
  | cons p rest ih =>
    obtain ⟨k', v'⟩ := p
    by_cases hk : k' = k
    · subst hk
      simp [objInsert, List.lookup]
    · rw [objInsert, if_neg hk, List.lookup, beq_false_of_ne (fun e => hk e.symm)]
      exact ih

theorem objInsert_lookup_other {α : Type} (l : List (String × α)) (k a : String) (v : α)
    (hne : a ≠ k) : List.lookup a (objInsert l k v) = List.lookup a l := by
  induction l with
  | nil => simp [objInsert, List.lookup, beq_false_of_ne hne]
  | cons p rest ih =>
    obtain ⟨k', v'⟩ := p
    by_cases hk : k' = k
    · subst hk
      rw [objInsert, if_pos rfl, List.lookup, List.lookup, beq_false_of_ne hne]
    · rw [objInsert, if_neg hk, List.lookup, List.lookup]
      cases hb : (a == k') with
      | true => rfl
      | false => exact ih

theorem addSection_lookup_not_mem (kws : List String) (out : CssTable) (st : Stats)
    (kw : String) (h : kw ∉ kws) :
    List.lookup kw (addSection out kws st) = List.lookup kw out := by
  induction kws generalizing out with
  | nil => rfl
  | cons k rest ih =>
    have h1 : kw ≠ k := fun e => h (e ▸ List.mem_cons_self k rest)
    have h2 : kw ∉ rest := fun e => h (List.mem_cons_of_mem _ e)
    simp only [addSection]
    rw [ih (objInsert out k st) h2, objInsert_lookup_other out k kw st h1]

theorem addSection_lookup_mem (kws : List String) (out : CssTable) (st : Stats)
    (kw : String) (h : kw ∈ kws) :
    List.lookup kw (addSection out kws st) = some st := by
  induction kws generalizing out with
  | nil => simp at h
  | cons k rest ih =>
    simp only [addSection]
    by_cases hr : kw ∈ rest
    · exact ih (objInsert out k st) hr
    · have hk : kw = k := by
        rcases List.mem_cons.mp h with h1 | h2
        · exact h1
        · exact absurd h2 hr
      subst hk
      rw [addSection_lookup_not_mem rest _ st kw hr]
      exact objInsert_lookup_self out kw st

theorem parseCSS_fold_eq (entries : List (String × FeatSection)) (out : CssTable)
    (name : String) (kws : List String) (kw1 kw2 : String)
    (h : List.lookup name cssSections = some kws) (m1 : kw1 ∈ kws) (m2 : kw2 ∈ kws)
    (he : List.lookup kw1 out = List.lookup kw2 out) :
    List.lookup kw1 (entries.foldl cssStep out) = List.lookup kw2 (entries.foldl cssStep out) := by
  induction entries generalizing out with
  | nil => simpa using he
  | cons e rest ih =>
    simp only [List.foldl_cons]
    apply ih
    rw [cssStep]
    cases hl : List.lookup e.1 cssSections with
    | none => exact he
    | some kws' =>
      by_cases hk1 : kw1 ∈ kws'
      · have hkk : kws' = kws := sections_unique e.1 name kws' kws kw1 hl h hk1 m1
        subst hkk
        rw [addSection_lookup_mem _ _ _ _ hk1, addSection_lookup_mem _ _ _ _ m2]
      · have hk2 : kw2 ∉ kws' := by
          intro hk2
          have hkk : kws' = kws := sections_unique e.1 name kws' kws kw2 hl h hk2 m2
          exact hk1 (hkk ▸ m1)
        rw [addSection_lookup_not_mem _ _ _ _ hk1, addSection_lookup_not_mem _ _ _ _ hk2]
        exact he

/-- Claim C10: whenever `parseCSS` completes on a decoded document, two
identifiers listed under the same feature-section name of the static
`cssSections` map are assigned the same support table, and
`resolvePrefixes` therefore returns equal results for both under identical
preferences over the same parsed database. -/
theorem resolvePrefixes_same_section (raw : RawDB) (css : CssTable) (name : String)
    (kws : List String) (kw1 kw2 : String)
    (hp : parseCSS raw = Except.ok css)
    (h : List.lookup name cssSections = some kws)
    (m1 : kw1 ∈ kws) (m2 : kw2 ∈ kws) :
    List.lookup kw1 css = List.lookup kw2 css ∧
    (∀ (p : Prefs) (st : DBState), st.cssDB = some css →
      resolvePrefixes p st kw1 = resolvePrefixes p st kw2) := by
  cases hcat : raw.cats with
  | none =>
    simp only [parseCSS, hcat] at hp
    exact Except.noConfusion hp
  | some cs =>
    simp only [parseCSS, hcat, Except.ok.injEq] at hp
    subst hp
    have hcss : List.lookup kw1 (cssTables raw) = List.lookup kw2 (cssTables raw) :=
      parseCSS_fold_eq raw.data [] name kws kw1 kw2 h m1 m2 rfl
    refine ⟨hcss, ?_⟩
    intro p st hst
    simp only [resolvePrefixes, hst, hcss]

/-- Witness for C10 at the `object-fit` feature section. -/
theorem resolvePrefixes_same_section_witness :
    List.lookup "object-fit" (cssTables wRawCss) =
      List.lookup "object-position" (cssTables wRawCss) :=
  (resolvePrefixes_same_section wRawCss (cssTables wRawCss) "object-fit"
    ["object-fit", "object-position"] "object-fit" "object-position" rfl (by decide)
    (by decide) (by decide)).1

theorem sortEras_perm (keys : List String) : (sortEras keys).Perm keys :=
  List.perm_insertionSort eraLe keys

theorem sortEras_strict (keys : List String) (h1 : keys.Nodup)
    (h2 : ∀ a ∈ keys, ∀ b ∈ keys, eraVal a = eraVal b → a = b) :
    (sortEras keys).Pairwise eraLt := by
  have hs : (sortEras keys).Pairwise eraLe := List.sorted_insertionSort eraLe keys
  have hn : (sortEras keys).Pairwise (fun a b : String => a ≠ b) :=
    (sortEras_perm keys).symm.nodup h1
  refine List.Pairwise.imp_of_mem ?_ (hs.and hn)
  intro a b ha hb hab
  have ha' : a ∈ keys := (sortEras_perm keys).mem_iff.mp ha
  have hb' : b ∈ keys := (sortEras_perm keys).mem_iff.mp hb
  rcases hab with ⟨hle, hne⟩
  rcases lt_or_eq_of_le hle with hlt | heq
  · exact hlt
  · exact absurd (h2 a ha' b hb' heq) hne

/-- Claim C7: for a valid era table (distinct identifiers denoting distinct
integer suffixes), the parsed era order is strictly increasing by the
integer suffix obtained after stripping the leading `e`, has no duplicate
identifiers, and does not depend on the enumeration order of the input keys. -/
theorem eraOrder_strict_mono (raw : RawDB)
    (h1 : (raw.eras.map Prod.fst).Nodup)
    (h2 : ∀ a ∈ raw.eras.map Prod.fst, ∀ b ∈ raw.eras.map Prod.fst,
      eraVal a = eraVal b → a = b) :
    (parseEra raw).Pairwise eraLt ∧ (parseEra raw).Nodup ∧
    (∀ raw' : RawDB, (raw'.eras.map Prod.fst).Perm (raw.eras.map Prod.fst) →
      parseEra raw' = parseEra raw) := by
  refine ⟨sortEras_strict _ h1 h2, (sortEras_perm _).symm.nodup h1, ?_⟩
  intro raw' hperm
  have h1' : (raw'.eras.map Prod.fst).Nodup := hperm.symm.nodup h1
  have h2' : ∀ a ∈ raw'.eras.map Prod.fst, ∀ b ∈ raw'.eras.map Prod.fst,
      eraVal a = eraVal b → a = b := by
    intro a ha b hb
    exact h2 a (hperm.subset ha) b (hperm.subset hb)
  have hp : (parseEra raw').Perm (parseEra raw) :=
    (sortEras_perm _).trans (hperm.trans (sortEras_perm _).symm)
  exact List.eq_of_perm_of_sorted hp (sortEras_strict _ h1' h2') (sortEras_strict _ h1 h2)

/-- Witness for C7 on a two-era table supplied newest-first. -/
theorem eraOrder_strict_mono_witness :
    (parseEra wRawEras).Pairwise eraLt ∧ (parseEra wRawEras).Nodup ∧
    (∀ raw' : RawDB, (raw'.eras.map Prod.fst).Perm (wRawEras.eras.map Prod.fst) →
      parseEra raw' = parseEra wRawEras) :=
  eraOrder_strict_mono wRawEras (by decide) (by decide)

/-- Counterexample to C8 as stated: loading a decoded document that lacks
the `cats` section throws after `vendorsDB` has been replaced but before
`cssDB` and `erasDB` are assigned, so a later reader observes the new
vendors table paired with the css and era tables of the previous snapshot
— the mixed state the claim says can never be observed. -/
theorem load_atomic_counterexample :
    loadThrows (some cRawNoCats) = true ∧
    (loadState cState8 (some cRawNoCats)).vendorsDB = some (parseVendors cRawNoCats) ∧
    (loadState cState8 (some cRawNoCats)).vendorsDB ≠ cState8.vendorsDB ∧
    (loadState cState8 (some cRawNoCats)).cssDB = cState8.cssDB ∧
    (loadState cState8 (some cRawNoCats)).erasDB = cState8.erasDB :=
  ⟨rfl, rfl, by decide, rfl, rfl⟩

/-- Claim C8 (amended): a decode failure aborts `load` with none of the
three tables changed (the previous snapshot stays active); a `load` of a
decoded document with a `cats` section completes and replaces all three
tables from that one document; but a `load` of a decoded document without
`cats` throws mid-parse, leaving the new vendors table paired with the
previous `cssDB` and `erasDB` — on that error path a reader can observe
tables of two different snapshots mixed. -/
theorem load_atomic_amended (st : DBState) :
    (loadThrows none = true ∧ loadState st none = st) ∧
    (∀ (raw : RawDB) (cs : List (String × List String)), raw.cats = some cs →
      loadThrows (some raw) = false ∧
      loadState st (some raw) =
        { vendorsDB := some (parseVendors raw), cssDB := some (cssTables raw),
          erasDB := some (parseEra raw) }) ∧
    (∀ raw : RawDB, raw.cats = none →
      loadThrows (some raw) = true ∧
      loadState st (some raw) = { st with vendorsDB := some (parseVendors raw) }) := by
  refine ⟨⟨rfl, rfl⟩, ?_, ?_⟩
  · intro raw cs hc
    constructor
    · simp [loadThrows, parseCSS, hc]
    · simp [loadState, parseCSS, hc]
  · intro raw hc
    constructor
    · simp [loadThrows, parseCSS, hc]
    · simp [loadState, parseCSS, hc]

/-- Witness for C8 (amended): a complete load over a document with `cats`,
replacing all three tables of the previous snapshot at once. -/
theorem load_atomic_amended_witness :
    loadThrows (some wRawCss) = false ∧
    loadState cState8 (some wRawCss) =
      { vendorsDB := some (parseVendors wRawCss), cssDB := some (cssTables wRawCss),
        erasDB := some (parseEra wRawCss) } :=
  (load_atomic_amended cState8).2.1 wRawCss [("CSS", [])] rfl

theorem drop_last {α : Type} : ∀ l : List α, l.drop (l.length - 1) = l.getLast?.toList
  | [] => rfl
  | [_] => rfl
  | a :: b :: t => by
    have ih := drop_last (b :: t)
    rw [List.getLast?_cons_cons]
    simpa using ih

theorem jsSlice_neg_one {α : Type} (l : List α) : jsSlice l (-1) = l.getLast?.toList := by
  rw [jsSlice, if_pos (by omega)]
  have hn : ((l.length : Int) + -1).toNat = l.length - 1 := by omega
  rw [hn]
  exact drop_last l

/-- Claim C9: when neither the configured era identifier nor the default
`e-2` occurs in the era order, the starting index is `-1`, and
`slice(-1)` makes each vendor's scanned version slice exactly the
singleton of its last version label (empty only for a vendor with no
versions at all, and never the whole list of a longer vendor). -/
theorem era_fallback_last (era : String) (eras : List String)
    (h1 : era ∉ eras) (h2 : "e-2" ∉ eras) :
    getVersionSlice era eras = -1 ∧
    (∀ vs : List (Option String), jsSlice vs (getVersionSlice era eras) = vs.getLast?.toList) ∧
    (∀ (vs : List (Option String)) (x : Option String), vs.getLast? = some x →
      jsSlice vs (getVersionSlice era eras) = [x]) := by
  have hg : getVersionSlice era eras = -1 := by
    rw [getVersionSlice, if_pos (by rw [jsIndexOf, if_neg h1]), jsIndexOf, if_neg h2]
  refine ⟨hg, ?_, ?_⟩
  · intro vs
    rw [hg]
    exact jsSlice_neg_one vs
  · intro vs x hx
    rw [hg, jsSlice_neg_one, hx]
    rfl

/-- Witness for C9 with an empty era order. -/
theorem era_fallback_last_witness :
    getVersionSlice "e9" [] = -1 ∧
    (∀ vs : List (Option String), jsSlice vs (getVersionSlice "e9" []) = vs.getLast?.toList) ∧
    (∀ (vs : List (Option String)) (x : Option String), vs.getLast? = some x →
      jsSlice vs (getVersionSlice "e9" []) = [x]) :=
  era_fallback_last "e9" [] (by decide) (by decide)

/-- Claim C6: the starting era index is the position of the configured era
identifier when it occurs in the era order and the position of the fixed
default `e-2` otherwise, and a non-negative starting index makes the
scanned slice of any version list exactly the suffix from that index on
(everything at or after the start, nothing before it). -/
theorem era_start_index (era : String) (eras : List String) :
    getVersionSlice era eras =
      (if era ∈ eras then jsIndexOf eras era else jsIndexOf eras "e-2") ∧
    (∀ vs : List (Option String), 0 ≤ getVersionSlice era eras →
      jsSlice vs (getVersionSlice era eras) = vs.drop (getVersionSlice era eras).toNat) := by
  constructor
  · by_cases h : era ∈ eras
    · have hne : jsIndexOf eras era ≠ -1 := by
        rw [jsIndexOf, if_pos h]
        omega
      rw [getVersionSlice, if_neg hne, if_pos h]
    · have heq : jsIndexOf eras era = -1 := by rw [jsIndexOf, if_neg h]
      rw [getVersionSlice, if_pos heq, if_neg h]
  · intro vs h0
    rw [jsSlice, if_neg (by omega)]

/-- Witness for C6 at a found era identifier. -/
theorem era_start_index_witness :
    jsSlice [some "a", some "b"] (getVersionSlice "e0" ["e-2", "e0"]) =
      [some "a", some "b"].drop (getVersionSlice "e0" ["e-2", "e0"]).toNat :=
  (era_start_index "e0" ["e-2", "e0"]).2 [some "a", some "b"] (by decide)

/-- Claim C5 (amended): the effective vendor set is every vendor key when
the configured list is the null sentinel for an empty configuration, or
when its first element is the `all` sentinel; otherwise it is the
intersection of the known vendor keys with the configured list, unknown
configured names being silently dropped. -/
theorem vendors_effective_set (db : VendorsTable) :
    getVendorsList none db = db.map Prod.fst ∧
    (∀ vs : List String, vs.head? = some "all" → getVendorsList (some vs) db = db.map Prod.fst) ∧
    (∀ vs : List String, vs.head? ≠ some "all" →
      getVendorsList (some vs) db = (db.map Prod.fst).filter (fun v => decide (v ∈ vs))) := by
  refine ⟨rfl, ?_, ?_⟩
  · intro vs h
    simp [getVendorsList, h]
  · intro vs h
    simp [getVendorsList, h]

/-- Witness for C5 with a restricted configured list. -/
theorem vendors_effective_set_witness :
    getVendorsList (some ["B"]) cVendorsDB = ["B"] :=
  (vendors_effective_set cVendorsDB).2.2 ["B"] (by decide)

/-- Counterexample to C5 as stated: the configured list `["all", "B"]` is
neither empty nor equal to the `all` sentinel, yet the code returns every
vendor key (it only inspects the first element), not the intersection. -/
theorem vendors_effective_set_counterexample :
    (["all", "B"] : List String) ≠ [] ∧
    (["all", "B"] : List String) ≠ ["all"] ∧
    getVendorsList (some ["all", "B"]) cVendorsDB = ["B", "C"] ∧
    (cVendorsDB.map Prod.fst).filter (fun v => decide (v ∈ (["all", "B"] : List String))) = ["B"] ∧
    getVendorsList (some ["all", "B"]) cVendorsDB ≠
      (cVendorsDB.map Prod.fst).filter (fun v => decide (v ∈ (["all", "B"] : List String))) := by
  exact ⟨by decide, by decide, rfl, rfl, by decide⟩

theorem uniqAux_not_mem (seen l : List String) : ∀ x ∈ uniqAux seen l, x ∉ seen := by
  induction l generalizing seen with
  | nil =>
    intro x hx
    simp [uniqAux] at hx
  | cons y ys ih =>
    intro x hx
    by_cases hy : y ∈ seen
    · rw [uniqAux, if_pos hy] at hx
      exact ih seen x hx
    · rw [uniqAux, if_neg hy] at hx
      rcases List.mem_cons.mp hx with rfl | hx'
      · exact hy
      · have h2 := ih (y :: seen) x hx'
        exact fun hmem => h2 (List.mem_cons_of_mem _ hmem)

theorem uniqAux_nodup (seen l : List String) : (uniqAux seen l).Nodup := by
  induction l generalizing seen with
  | nil => simp [uniqAux]
  | cons y ys ih =>
    by_cases hy : y ∈ seen
    · rw [uniqAux, if_pos hy]
      exact ih seen
    · rw [uniqAux, if_neg hy]
      refine List.nodup_cons.mpr ⟨?_, ih (y :: seen)⟩
      intro hmem
      exact uniqAux_not_mem (y :: seen) ys y hmem (List.mem_cons_self y seen)

theorem jsUniq_nodup (l : List String) : (jsUniq l).Nodup := uniqAux_nodup [] l

theorem sortPrefixes_nodup (l : List String) (h : l.Nodup) : (sortPrefixes l).Nodup :=
  (List.perm_insertionSort lenGe l).symm.nodup h

theorem sortPrefixes_sorted (l : List String) : (sortPrefixes l).Pairwise lenGe :=
  List.sorted_insertionSort lenGe l

/-- Claim C4: whenever `resolvePrefixes` returns a list, that list has no
duplicate prefix strings and is sorted by descending string length. -/
theorem result_nodup_sorted (p : Prefs) (st : DBState) (property : String) (l : List String)
    (h : resolvePrefixes p st property = Except.ok (some l)) :
    l.Nodup ∧ l.Pairwise (fun a b => b.length ≤ a.length) := by
  rw [resolvePrefixes] at h
  split at h
  · simp at h
  · split at h
    · simp at h
    · split at h
      · simp at h
      · split at h
        · simp at h
        · simp only [Except.ok.injEq, Option.some.injEq] at h
          subst h
          exact ⟨sortPrefixes_nodup _ (jsUniq_nodup _), sortPrefixes_sorted _⟩

/-- Witness for C4 on a query that returns the one-element list `["-a-"]`. -/
theorem result_nodup_sorted_witness :
    (["-a-"] : List String).Nodup ∧
    (["-a-"] : List String).Pairwise (fun a b => b.length ≤ a.length) :=
  result_nodup_sorted cPrefs wState "box-shadow" ["-a-"] rfl

/-- Claim C2: within one vendor's scanned slice, falsy entries are skipped,
and the first version whose support code contains the `x` flag makes the
scan answer `true` whatever comes after it (no later version overrides
it); a vendor whose scan answers `true` contributes its prefix to the
collected list. -/
theorem scan_first_match :
    (∀ (stats : Stats) (vendor : String) (pre : List (Option String)) (v : Option String)
      (post : List (Option String)) (code : String),
      (∀ u ∈ pre, skips stats vendor u) →
      isAbsent v = false →
      lookupCode stats vendor (v.getD "") = Except.ok code →
      containsX code = true →
      scanVendor stats vendor (pre ++ v :: post) = Except.ok true) ∧
    (∀ (db : VendorsTable) (stats : Stats) (start : Int) (names : List String)
      (name : String) (ag : Agent) (l : List String),
      name ∈ names → List.lookup name db = some ag →
      scanVendor stats name (jsSlice ag.versions start) = Except.ok true →
      collect db stats start names = Except.ok l →
      ag.pfx ∈ l) := by
  constructor
  · intro stats vendor pre
    induction pre with
    | nil =>
      intro v post code _ habs hlook hx
      rw [List.nil_append]
      simp [scanVendor, habs, hlook, hx]
    | cons u us ih =>
      intro v post code hpre habs hlook hx
      have hrest : ∀ w ∈ us, skips stats vendor w := fun w hw => hpre w (List.mem_cons_of_mem _ hw)
      rw [List.cons_append]
      by_cases ha : isAbsent u = true
      · simp only [scanVendor, ha, if_true]
        exact ih v post code hrest habs hlook hx
      · have ha' : isAbsent u = false := by
          cases hau : isAbsent u
          · rfl
          · exact absurd hau ha
        rcases hpre u (List.mem_cons_self u us) with hu | ⟨code', hl', hx'⟩
        · exact absurd hu ha
        · simp only [scanVendor, ha', Bool.false_eq_true, if_false, hl', hx']
          exact ih v post code hrest habs hlook hx
  · intro db stats start names
    induction names with
    | nil =>
      intro name ag l h
      simp at h
    | cons n rest ih =>
      intro name ag l hmem hlook hscan hcol
      cases hdb : List.lookup n db with
      | none =>
        simp only [collect, hdb] at hcol
        exact absurd hcol (by simp)
      | some ag' =>
        rcases List.mem_cons.mp hmem with rfl | hmem'
        · rw [hlook] at hdb
          obtain rfl : ag = ag' := Option.some.inj hdb
          simp only [collect, hlook, hscan] at hcol
          cases hc : collect db stats start rest with
          | error e =>
            rw [hc] at hcol
            simp [Except.map] at hcol
          | ok l' =>
            rw [hc] at hcol
            simp only [Except.map, Except.ok.injEq] at hcol
            rw [← hcol]
            exact List.mem_cons_self _ _
        · cases hscan' : scanVendor stats n (jsSlice ag'.versions start) with
          | error e =>
            simp only [collect, hdb, hscan'] at hcol
            exact absurd hcol (by simp)
          | ok b =>
            simp only [collect, hdb, hscan'] at hcol
            cases b with
            | true =>
              cases hc : collect db stats start rest with
              | error e =>
                rw [hc] at hcol
                simp [Except.map] at hcol
              | ok l' =>
                rw [hc] at hcol
                simp only [Except.map, Except.ok.injEq] at hcol
                have hm := ih name ag l' hmem' hlook hscan hc
                rw [← hcol]
                exact List.mem_cons_of_mem _ hm
            | false => exact ih name ag l hmem' hlook hscan hcol

/-- Witness for C2: version `1` of vendor `A` is unprefixed, version `2`
carries the `x` flag, so the scan over `[1, 2, 3]` answers `true`. -/
theorem scan_first_match_witness :
    scanVendor wStats "A" ([some "1"] ++ some "2" :: [some "3"]) = Except.ok true :=
  scan_first_match.1 wStats "A" [some "1"] (some "2") [some "3"] "a x"
    (by
      intro u hu
      rcases List.mem_singleton.mp hu with rfl
      exact Or.inr ⟨"n", rfl, rfl⟩)
    rfl rfl rfl

/-- Claim C3 (amended): a support-code lookup for a (vendor, version) pair
whose cell is missing makes the scan, and hence the whole call, fail with
a thrown type error; only falsy version entries are skipped gracefully. -/
theorem missing_cell_hard_failure :
    (∀ (stats : Stats) (vendor : String) (pre : List (Option String)) (v : Option String)
      (post : List (Option String)),
      (∀ u ∈ pre, skips stats vendor u) →
      isAbsent v = false →
      lookupCode stats vendor (v.getD "") = Except.error () →
      scanVendor stats vendor (pre ++ v :: post) = Except.error ()) ∧
    (∀ (db : VendorsTable) (stats : Stats) (start : Int) (names : List String)
      (name : String) (ag : Agent),
      name ∈ names → List.lookup name db = some ag →
      scanVendor stats name (jsSlice ag.versions start) = Except.error () →
      collect db stats start names = Except.error ()) := by
  constructor
  · intro stats vendor pre
    induction pre with
    | nil =>
      intro v post _ habs hlook
      rw [List.nil_append]
      simp [scanVendor, habs, hlook]
    | cons u us ih =>
      intro v post hpre habs hlook
      have hrest : ∀ w ∈ us, skips stats vendor w := fun w hw => hpre w (List.mem_cons_of_mem _ hw)
      rw [List.cons_append]
      by_cases ha : isAbsent u = true
      · simp only [scanVendor, ha, if_true]
        exact ih v post hrest habs hlook
      · have ha' : isAbsent u = false := by
          cases hau : isAbsent u
          · rfl
          · exact absurd hau ha
        rcases hpre u (List.mem_cons_self u us) with hu | ⟨code', hl', hx'⟩
        · exact absurd hu ha
        · simp only [scanVendor, ha', Bool.false_eq_true, if_false, hl', hx']
          exact ih v post hrest habs hlook
  · intro db stats start names
    induction names with
    | nil =>
      intro name ag h
      simp at h
    | cons n rest ih =>
      intro name ag hmem hlook hscan
      cases hdb : List.lookup n db with
      | none => simp only [collect, hdb]
      | some ag' =>
        rcases List.mem_cons.mp hmem with rfl | hmem'
        · rw [hlook] at hdb
          obtain rfl : ag = ag' := Option.some.inj hdb
          simp only [collect, hlook, hscan]
        · cases hscan' : scanVendor stats n (jsSlice ag'.versions start) with
          | error e => simp only [collect, hdb, hscan']
          | ok b =>
            simp only [collect, hdb, hscan']
            cases b with
            | true =>
              rw [ih name ag hmem' hlook hscan]
              rfl
            | false => exact ih name ag hmem' hlook hscan

/-- Witness for C3 (amended): the scan of version `1` against a support
table whose `A` row has no cell for `1` fails. -/
theorem missing_cell_hard_failure_witness :
    scanVendor [("A", ([] : VersionTable))] "A" ([] ++ some "1" :: []) = Except.error () :=
  missing_cell_hard_failure.1 [("A", ([] : VersionTable))] "A" [] (some "1") []
    (by
      intro u hu
      simp at hu)
    rfl rfl

/-- Counterexample to C3 as stated: a state whose support table for `p` has
an `A` row without a cell for the scanned version `1`; the call hard-fails
with a thrown type error instead of completing normally. -/
theorem missing_cell_counterexample :
    cState3.cssDB = some [("p", [("A", ([] : VersionTable))])] ∧
    lookupCode [("A", ([] : VersionTable))] "A" "1" = Except.error () ∧
    resolvePrefixes cPrefs cState3 "p" = Except.error () ∧
    ¬∃ r, resolvePrefixes cPrefs cState3 "p" = Except.ok r := by
  refine ⟨rfl, rfl, rfl, ?_⟩
  rintro ⟨r, hr⟩
  rw [show resolvePrefixes cPrefs cState3 "p" = Except.error () from rfl] at hr
  exact Except.noConfusion hr

/-- Claim C1 (amended): the call answers the null sentinel exactly when the
feature is disabled, no database is parsed, or the identifier has no
matrix entry; in every other case it returns a (possibly empty) list
provided every support-code lookup reached by the scan finds its cell
(otherwise the call fails with a thrown type error instead). -/
theorem resolvePrefixes_sentinel (p : Prefs) (st : DBState) (property : String) :
    (resolvePrefixes p st property = Except.ok none ↔
      (p.enabled = false ∨ st.cssDB = none ∨
        ∃ css, st.cssDB = some css ∧ List.lookup property css = none)) ∧
    (∀ (css : CssTable) (propStats : Stats) (ps : List String),
      p.enabled = true → st.cssDB = some css →
      List.lookup property css = some propStats →
      collect (st.vendorsDB.getD []) propStats (getVersionSlice p.era (st.erasDB.getD []))
        (getVendorsList p.vendorsList (st.vendorsDB.getD [])) = Except.ok ps →
      resolvePrefixes p st property = Except.ok (some (sortPrefixes (jsUniq ps)))) := by
  constructor
  · cases hE : p.enabled with
    | false =>
      have hres : resolvePrefixes p st property = Except.ok none := by
        simp [resolvePrefixes, hE]
      rw [hres]
      exact iff_of_true rfl (Or.inl rfl)
    | true =>
      cases hC : st.cssDB with
      | none =>
        have hres : resolvePrefixes p st property = Except.ok none := by
          simp [resolvePrefixes, hE, hC]
        rw [hres]
        exact iff_of_true rfl (Or.inr (Or.inl rfl))
      | some css =>
        cases hL : List.lookup property css with
        | none =>
          have hres : resolvePrefixes p st property = Except.ok none := by
            simp [resolvePrefixes, hE, hC, hL]
          rw [hres]
          exact iff_of_true rfl (Or.inr (Or.inr ⟨css, rfl, hL⟩))
        | some propStats =>
          have hRHS : ¬(true = false ∨ (some css : Option CssTable) = none ∨
              ∃ css', (some css : Option CssTable) = some css' ∧
                List.lookup property css' = none) := by
            rintro (h1 | h2 | ⟨css', hcss, hnone⟩)
            · exact Bool.noConfusion h1
            · exact Option.noConfusion h2
            · obtain rfl : css = css' := Option.some.inj hcss
              rw [hL] at hnone
              exact Option.noConfusion hnone
          cases hcol : collect (st.vendorsDB.getD []) propStats
              (getVersionSlice p.era (st.erasDB.getD []))
              (getVendorsList p.vendorsList (st.vendorsDB.getD [])) with
          | error e =>
            have hres : resolvePrefixes p st property = Except.error e := by
              simp [resolvePrefixes, hE, hC, hL, hcol]
            rw [hres]
            exact iff_of_false (fun hc => Except.noConfusion hc) hRHS
          | ok ps =>
            have hres : resolvePrefixes p st property =
                Except.ok (some (sortPrefixes (jsUniq ps))) := by
              simp [resolvePrefixes, hE, hC, hL, hcol]
            rw [hres]
            refine iff_of_false ?_ hRHS
            intro hc
            exact Option.noConfusion (Except.ok.inj hc)
  · intro css propStats ps hE hC hL hcol
    simp [resolvePrefixes, hE, hC, hL, hcol]

/-- Witness for C1 (amended) on a fully populated state. -/
theorem resolvePrefixes_sentinel_witness :
    resolvePrefixes cPrefs wState "box-shadow" =
      Except.ok (some (sortPrefixes (jsUniq ["-a-"]))) :=
  (resolvePrefixes_sentinel cPrefs wState "box-shadow").2 [("box-shadow", wStats)] wStats
    ["-a-"] rfl rfl rfl rfl

/-- Counterexample to C1 as stated: the feature is enabled, a database is
parsed and `p` has a matrix entry, yet the call returns neither the null
sentinel nor a list — it throws, because the support table for `p` has no
row for the scanned vendor `A`. -/
theorem resolvePrefixes_sentinel_counterexample :
    cPrefs.enabled = true ∧
    cState1.cssDB = some [("p", ([] : Stats))] ∧
    List.lookup "p" [("p", ([] : Stats))] = some [] ∧
    resolvePrefixes cPrefs cState1 "p" = Except.error () ∧
    ¬∃ l, resolvePrefixes cPrefs cState1 "p" = Except.ok (some l) := by
  refine ⟨rfl, rfl, rfl, rfl, ?_⟩
  rintro ⟨l, hl⟩
  rw [show resolvePrefixes cPrefs cState1 "p" = Except.error () from rfl] at hl
  exact Except.noConfusion hl

end Caniuse
